import Mathlib

/-!
Shallow embedding of `src/meter.rs` of the `lru_time_cache` size-accounting
component, together with proofs of its specified properties.

Modelling conventions:
* `usize` is modelled as `Nat`; arithmetic on it wraps modulo `2 ^ 64`
  (64-bit target, release-profile wrap-around semantics), written with an
  explicit `% USIZE_MOD`.
* `u64` values are modelled as `Nat`; the Rust cast `current as u64` is the
  explicit truncation `current % USIZE_MOD`.
* Rust's `()` measure is Lean's `Unit`; `Option<u64>` is `Option Nat`.
* Trait impls become Lean functions; the `CountableMeterWithMeasure` trait
  becomes a structure of its three methods, and the blanket
  `impl CountableMeter for T` becomes functions delegating to that structure.
-/

namespace LruMeter

/-- Bit width of `usize` on the modelled 64-bit target. -/
def USIZE_WIDTH : Nat := 64

/-- Modulus of `usize` arithmetic: `2 ^ 64`. -/
def USIZE_MOD : Nat := 2 ^ USIZE_WIDTH

/-- Embeds `meter_add` of `impl CountableMeterWithMeasure<K, V, usize> for T`:
`current + amount` on `usize` (wrap-around on overflow). -/
def meter_add (current amount : Nat) : Nat :=
  (current + amount) % USIZE_MOD

/-- Embeds `meter_sub` of `impl CountableMeterWithMeasure<K, V, usize> for T`:
`current - amount` on `usize` (wrap-around on underflow). -/
def meter_sub (current amount : Nat) : Nat :=
  (current + USIZE_MOD - amount) % USIZE_MOD

/-- Embeds `meter_size` of `impl CountableMeterWithMeasure<K, V, usize> for T`:
`Some(current as u64)`; the cast is the explicit truncation mod `2 ^ 64`. -/
def meter_size (current : Nat) : Option Nat :=
  some (current % USIZE_MOD)

/-- Embeds `Count::measure` from `impl<K, V> Meter<K, V> for Count`: it ignores
the key and the value and returns the unit measure. -/
def Count.measure {Q V : Type} (_key : Q) (_value : V) : Unit := ()

/-- Embeds `meter_add` of `impl CountableMeterWithMeasure<K, V, ()> for Count`:
a no-op returning `()`. -/
def Count.meter_add (_current _amount : Unit) : Unit := ()

/-- Embeds `meter_sub` of `impl CountableMeterWithMeasure<K, V, ()> for Count`:
a no-op returning `()`. -/
def Count.meter_sub (_current _amount : Unit) : Unit := ()

/-- Embeds `meter_size` of `impl CountableMeterWithMeasure<K, V, ()> for Count`:
always `None`. -/
def Count.meter_size (_current : Unit) : Option Nat := none

/-- One call into the `Count` accumulator: `true` is a `meter_add` call,
`false` a `meter_sub` call (the amount argument is necessarily `()`). -/
def Count.step (total : Unit) (callIsAdd : Bool) : Unit :=
  if callIsAdd then Count.meter_add total () else Count.meter_sub total ()

/-- Running total of the `Count` accumulator after a sequence of
add/subtract calls. -/
def Count.run (total : Unit) (calls : List Bool) : Unit :=
  calls.foldl Count.step total

/-- Embeds `HeapSize::measure` from `impl<K, V: HeapSizeOf> Meter<K, V> for
HeapSize`: `item.heap_size_of_children() + size_of::<V>()` on `usize`.
The external `HeapSizeOf` capability is a parameter `heap_size_of_children`,
and `size_of::<V>()` is the parameter `size_of_V`. -/
def HeapSize.measure {Q V : Type} (heap_size_of_children : V → Nat)
    (size_of_V : Nat) (_key : Q) (value : V) : Nat :=
  (heap_size_of_children value + size_of_V) % USIZE_MOD

/-- The trait `CountableMeterWithMeasure<K, V, M>` as a record of its three
methods over the measure type `M`. -/
structure CountableMeterWithMeasure (M : Type) where
  meter_add : M → M → M
  meter_sub : M → M → M
  meter_size : M → Option Nat

/-- Embeds `add` of the blanket `impl<K, V, T> CountableMeter<K, V> for T`:
it delegates to `CountableMeterWithMeasure::meter_add`. -/
def CountableMeter.add {M : Type} (t : CountableMeterWithMeasure M)
    (current amount : M) : M :=
  t.meter_add current amount

/-- Embeds `sub` of the blanket `impl<K, V, T> CountableMeter<K, V> for T`:
it delegates to `CountableMeterWithMeasure::meter_sub`. -/
def CountableMeter.sub {M : Type} (t : CountableMeterWithMeasure M)
    (current amount : M) : M :=
  t.meter_sub current amount

/-- Embeds `size` of the blanket `impl<K, V, T> CountableMeter<K, V> for T`:
it delegates to `CountableMeterWithMeasure::meter_size`. -/
def CountableMeter.size {M : Type} (t : CountableMeterWithMeasure M)
    (current : M) : Option Nat :=
  t.meter_size current

/-- The `usize` instance of `CountableMeterWithMeasure`, packaged. -/
def usizeMeter : CountableMeterWithMeasure Nat :=
  ⟨meter_add, meter_sub, meter_size⟩

/-- The `Count` (unit-measure) instance of `CountableMeterWithMeasure`,
packaged. -/
def countMeter : CountableMeterWithMeasure Unit :=
  ⟨Count.meter_add, Count.meter_sub, Count.meter_size⟩

/-- Running total after `meter_add`-ing every weight of a list in order. -/
def addAll (total : Nat) (ws : List Nat) : Nat :=
  ws.foldl meter_add total

/-- Running total after `meter_sub`-ing every weight of a list in order. -/
def subAll (total : Nat) (ws : List Nat) : Nat :=
  ws.foldl meter_sub total

theorem USIZE_MOD_pos : 0 < USIZE_MOD := by
  unfold USIZE_MOD USIZE_WIDTH
  exact Nat.pos_pow_of_pos 64 (by decide)

theorem addAll_eq (ws : List Nat) (total : Nat) (h : total < USIZE_MOD) :
    addAll total ws = (total + ws.sum) % USIZE_MOD := by
  induction ws generalizing total with
  | nil => simpa [addAll] using (Nat.mod_eq_of_lt h).symm
  | cons w ws ih =>
    have hlt : (total + w) % USIZE_MOD < USIZE_MOD :=
      Nat.mod_lt _ USIZE_MOD_pos
    have := ih ((total + w) % USIZE_MOD) hlt
    simp only [addAll, List.foldl_cons, meter_add] at this ⊢
    rw [this, Nat.mod_add_mod, List.sum_cons, ← Nat.add_assoc]

theorem subAll_eq (ws : List Nat) (total : Nat) (h : total < USIZE_MOD)
    (hw : ∀ w ∈ ws, w ≤ USIZE_MOD) :
    subAll total ws = (total + (ws.map (fun w => USIZE_MOD - w)).sum) % USIZE_MOD := by
  induction ws generalizing total with
  | nil => simpa [subAll] using (Nat.mod_eq_of_lt h).symm
  | cons w ws ih =>
    have hlt : (total + USIZE_MOD - w) % USIZE_MOD < USIZE_MOD :=
      Nat.mod_lt _ USIZE_MOD_pos
    have hwle : w ≤ USIZE_MOD := hw w (List.mem_cons_self w ws)
    have hrest : ∀ x ∈ ws, x ≤ USIZE_MOD := fun x hx => hw x (List.mem_cons_of_mem w hx)
    have := ih ((total + USIZE_MOD - w) % USIZE_MOD) hlt hrest
    simp only [subAll, List.foldl_cons, meter_sub] at this ⊢
    rw [this, Nat.mod_add_mod, List.map_cons, List.sum_cons]
    congr 1
    rw [Nat.add_sub_assoc hwle, Nat.add_assoc]

theorem map_sub_sum (ws : List Nat) (hw : ∀ w ∈ ws, w ≤ USIZE_MOD) :
    (ws.map (fun w => USIZE_MOD - w)).sum + ws.sum = ws.length * USIZE_MOD := by
  induction ws with
  | nil => simp
  | cons w ws ih =>
    have hwle : w ≤ USIZE_MOD := hw w (List.mem_cons_self w ws)
    have hrest : ∀ x ∈ ws, x ≤ USIZE_MOD := fun x hx => hw x (List.mem_cons_of_mem w hx)
    simp only [List.map_cons, List.sum_cons, List.length_cons]
    calc USIZE_MOD - w + (ws.map (fun w => USIZE_MOD - w)).sum + (w + ws.sum)
        = (USIZE_MOD - w + w) + ((ws.map (fun w => USIZE_MOD - w)).sum + ws.sum) := by ring
      _ = USIZE_MOD + ws.length * USIZE_MOD := by
          rw [Nat.sub_add_cancel hwle, ih hrest]
      _ = (ws.length + 1) * USIZE_MOD := by ring

/-- Claim C1: for the usize-measure accumulator, rendering the total right
after adding a single usize weight `w` to the default (zero) total yields
`Some(w)`: `meter_size (meter_add 0 w) = some w`. -/
theorem meter_add_zero_then_size (w : Nat) (h : w < USIZE_MOD) :
    meter_size (meter_add 0 w) = some w := by
  have h1 : meter_add 0 w = w := by
    simp [meter_add, Nat.mod_eq_of_lt h]
  rw [h1]
  simp [meter_size, Nat.mod_eq_of_lt h]

/-- Witness for C1 at the concrete weight 7. -/
theorem meter_add_zero_then_size_witness :
    7 < USIZE_MOD ∧ meter_size (meter_add 0 7) = some 7 :=
  ⟨by decide, meter_add_zero_then_size 7 (by decide)⟩

/-- Claim C2: for the usize-measure accumulator, adding every weight of a
list to a starting total and then subtracting the same multiset of weights
in any order returns the total to its starting value. Proved without the
claim's no-intermediate-underflow proviso, so it holds a fortiori with it. -/
theorem addAll_subAll_perm_cancel (t : Nat) (ws ws' : List Nat)
    (ht : t < USIZE_MOD) (hw : ∀ w ∈ ws, w < USIZE_MOD)
    (hperm : List.Perm ws ws') :
    subAll (addAll t ws) ws' = t := by
  have hW' : ∀ w ∈ ws', w ≤ USIZE_MOD := fun w hmem =>
    le_of_lt (hw w (hperm.mem_iff.mpr hmem))
  have hadd := addAll_eq ws t ht
  have hlt : addAll t ws < USIZE_MOD := by
    rw [hadd]; exact Nat.mod_lt _ USIZE_MOD_pos
  have hsub := subAll_eq ws' (addAll t ws) hlt hW'
  rw [hsub, hadd, Nat.mod_add_mod]
  have hsum : ws'.sum = ws.sum := hperm.sum_eq.symm
  have hms := map_sub_sum ws' hW'
  have hkey : t + ws.sum + (ws'.map (fun w => USIZE_MOD - w)).sum
      = t + ws'.length * USIZE_MOD := by
    rw [← hms, hsum]; ring
  rw [hkey, Nat.add_mul_mod_self_right, Nat.mod_eq_of_lt ht]

/-- Witness for C2: total 5, weights [3, 4] subtracted in the order [4, 3]. -/
theorem addAll_subAll_perm_cancel_witness :
    (5 < USIZE_MOD ∧ (∀ w ∈ [3, 4], w < USIZE_MOD) ∧ List.Perm [3, 4] [4, 3]) ∧
    subAll (addAll 5 [3, 4]) [4, 3] = 5 :=
  ⟨⟨by decide, by decide, by decide⟩,
    addAll_subAll_perm_cancel 5 [3, 4] [4, 3] (by decide) (by decide) (by decide)⟩

/-- Claim C3: for the unit-shaped measure (`Count`, `Measure = ()`), after any
sequence of `meter_add`/`meter_sub` calls the running total is the unit value,
and `meter_size` of the running total is `none`. -/
theorem count_run_unit_size_none (calls : List Bool) (total : Unit) :
    Count.run total calls = () ∧ Count.meter_size (Count.run total calls) = none :=
  ⟨rfl, rfl⟩

/-- Counterexample for C4 as stated: at `current = usize::MAX` and
`amount = 1`, `meter_add` wraps to 0 and does not return the mathematical sum
`current + amount`. -/
theorem meter_add_overflow_counterexample :
    meter_add (USIZE_MOD - 1) 1 ≠ USIZE_MOD - 1 + 1 := by
  decide

/-- Claim C4 (amended): for usize `current` and `amount` such that
`current + amount` does not overflow usize and `amount ≤ current`,
`meter_add` returns `current + amount`, `meter_sub` returns
`current - amount`, and `meter_size current` returns `some current`
(never `none`). -/
theorem usize_ops_exact_of_no_overflow (current amount : Nat)
    (h1 : current + amount < USIZE_MOD) (h2 : amount ≤ current) :
    meter_add current amount = current + amount ∧
    meter_sub current amount = current - amount ∧
    meter_size current = some current := by
  have hc : current < USIZE_MOD := lt_of_le_of_lt (Nat.le_add_right _ _) h1
  refine ⟨?_, ?_, ?_⟩
  · simp [meter_add, Nat.mod_eq_of_lt h1]
  · have hswap : current + USIZE_MOD - amount = current - amount + USIZE_MOD := by
      omega
    rw [meter_sub, hswap, Nat.add_mod_right,
      Nat.mod_eq_of_lt (lt_of_le_of_lt (Nat.sub_le _ _) hc)]
  · simp [meter_size, Nat.mod_eq_of_lt hc]

/-- Witness for the amended C4 at `current = 10`, `amount = 3`. -/
theorem usize_ops_exact_of_no_overflow_witness :
    (10 + 3 < USIZE_MOD ∧ 3 ≤ 10) ∧
    (meter_add 10 3 = 10 + 3 ∧ meter_sub 10 3 = 10 - 3 ∧
      meter_size 10 = some 10) :=
  ⟨⟨by decide, by decide⟩,
    usize_ops_exact_of_no_overflow 10 3 (by decide) (by decide)⟩

/-- Claim C5: every usize accumulator operation is total and infallible: for
all usize inputs (including pairs whose mathematical sum exceeds
`usize::MAX`), `meter_add` and `meter_sub` return a usize value, and
`meter_size` never fails to return a value. -/
theorem usize_ops_total (current amount : Nat)
    (hc : current < USIZE_MOD) (ha : amount < USIZE_MOD) :
    meter_add current amount < USIZE_MOD ∧
    meter_sub current amount < USIZE_MOD ∧
    meter_size current ≠ none := by
  refine ⟨Nat.mod_lt _ USIZE_MOD_pos, Nat.mod_lt _ USIZE_MOD_pos, ?_⟩
  simp [meter_size]

/-- Witness for C5 at the overflowing pair
`current = amount = usize::MAX`. -/
theorem usize_ops_total_witness :
    (USIZE_MOD - 1 < USIZE_MOD ∧ USIZE_MOD - 1 < USIZE_MOD) ∧
    (meter_add (USIZE_MOD - 1) (USIZE_MOD - 1) < USIZE_MOD ∧
      meter_sub (USIZE_MOD - 1) (USIZE_MOD - 1) < USIZE_MOD ∧
      meter_size (USIZE_MOD - 1) ≠ none) :=
  ⟨⟨by decide, by decide⟩,
    usize_ops_total (USIZE_MOD - 1) (USIZE_MOD - 1) (by decide) (by decide)⟩

/-- Claim C6: `Count::measure` returns the unit value for every key and
value. -/
theorem count_measure_unit (Q V : Type) (q : Q) (v : V) :
    Count.measure q v = () :=
  rfl

/-- Claim C7: for every total `t`, `meter_sub t t = 0` and
`meter_size (meter_sub t t) = some 0`. -/
theorem meter_sub_self_zero (t : Nat) :
    meter_sub t t = 0 ∧ meter_size (meter_sub t t) = some 0 := by
  have h : meter_sub t t = 0 := by
    rw [meter_sub, Nat.add_sub_cancel_left, Nat.mod_self]
  exact ⟨h, by rw [h]; simp [meter_size]⟩

/-- Claim C8: `HeapSize::measure` returns the value's transitively-owned heap
footprint plus the shallow size of the value's type, for every key and value
(the footprint sum being representable in usize, as every real memory
footprint is). -/
theorem heapsize_measure_eq (Q V : Type) (heap_size_of_children : V → Nat)
    (size_of_V : Nat) (q : Q) (v : V)
    (h : heap_size_of_children v + size_of_V < USIZE_MOD) :
    HeapSize.measure heap_size_of_children size_of_V q v
      = heap_size_of_children v + size_of_V := by
  simp [HeapSize.measure, Nat.mod_eq_of_lt h]

/-- Witness for C8: a value with no owned heap data and shallow size 16
measures exactly 16. -/
theorem heapsize_measure_eq_witness :
    ((fun (_ : Unit) => 0) () + 16 < USIZE_MOD) ∧
    HeapSize.measure (fun (_ : Unit) => 0) 16 () ()
      = (fun (_ : Unit) => 0) () + 16 :=
  ⟨by decide, heapsize_measure_eq Unit Unit (fun _ => 0) 16 () () (by decide)⟩

/-- Claim C9: the blanket `CountableMeter` implementation is exactly the
`CountableMeterWithMeasure` dispatch: for every meter and all inputs, `add`,
`sub` and `size` return precisely `meter_add`, `meter_sub` and `meter_size`
on the same inputs. -/
theorem countable_meter_delegates (M : Type)
    (t : CountableMeterWithMeasure M) (current amount : M) :
    CountableMeter.add t current amount = t.meter_add current amount ∧
    CountableMeter.sub t current amount = t.meter_sub current amount ∧
    CountableMeter.size t current = t.meter_size current :=
  ⟨rfl, rfl, rfl⟩

/-- Claim C10: the widening `current as u64` in `meter_size` is
value-preserving for every usize total: `meter_size current = some current`
with no truncation. -/
theorem meter_size_value_preserving (current : Nat)
    (h : current < USIZE_MOD) :
    meter_size current = some current := by
  simp [meter_size, Nat.mod_eq_of_lt h]

/-- Witness for C10 at the concrete total 42. -/
theorem meter_size_value_preserving_witness :
    42 < USIZE_MOD ∧ meter_size 42 = some 42 :=
  ⟨by decide, meter_size_value_preserving 42 (by decide)⟩

end LruMeter
